import Mathlib

/-!
Verification development for the FF12 VBF archive reader
(`ff12/Archive/Reader.py`).

The reader is shallowly embedded: the archive file is a `List Nat` of
byte values, the Python binary file handle becomes a `Handle` carrying
the content and a seek position, and the stateful methods of
`ArchiveReader` become explicit state-passing functions.  The zlib
inflation routine (`zlib.decompress`) is an external library and is
passed in as a function parameter `inflate`; `none` models the raise of
`zlib.error` on a corrupt stream.
-/

deriving instance DecidableEq for Except

namespace FF12

/-- `ArchiveReader._MAX_BLOCK_SIZE = 64 * 1024`. -/
def MAX_BLOCK_SIZE : Nat := 64 * 1024

/-- `ArchiveEntry`: original (decompressed) size, data start offset, and
the slice of the global block-size table belonging to this file. -/
structure ArchiveEntry where
  original_size : Nat
  data_offset : Nat
  block_sizes : List Nat
deriving DecidableEq, Repr

/-- A binary file handle: the file's bytes plus the current seek position.
Models the `BinaryIO` object stored in `ArchiveReader._file_handle`. -/
structure Handle where
  content : List Nat
  pos : Nat
deriving DecidableEq, Repr

/-- `file.read(n)`: returns up to `n` bytes from the current position and
advances the position by the number of bytes actually returned. -/
def Handle.read (h : Handle) (n : Nat) : List Nat × Handle :=
  let bs := (h.content.drop h.pos).take n
  (bs, ⟨h.content, h.pos + bs.length⟩)

/-- `file.seek(off, io.SEEK_SET)`. -/
def Handle.seek (h : Handle) (off : Nat) : Handle :=
  ⟨h.content, off⟩

/-- One I/O operation performed on the underlying file handle. -/
inductive IOOp where
  | seek (off : Nat)
  | read (n : Nat)
deriving DecidableEq, Repr

/-- Errors raised by `unpack_file`:
`ValueError("Archive file handle is not open")`, `FileNotFoundError`,
`EOFError("Unexpected EOF reading data block")`, `zlib.error`. -/
inductive UnpackErr where
  | notOpen
  | notFound
  | truncated
  | decompressFailed
deriving DecidableEq, Repr

/-- The sentinel rewrite at the top of the block loop:
`if block_size == 0: block_size = self._MAX_BLOCK_SIZE`. -/
def onDiskSize (declared : Nat) : Nat :=
  if declared = 0 then MAX_BLOCK_SIZE else declared

/-- Python `bytearray` slice assignment `data[a : a + chunk.length] = chunk`.
When the target range reaches past the end of `data` the buffer grows,
exactly as in Python. -/
def setSlice (data : List Nat) (a : Nat) (chunk : List Nat) : List Nat :=
  data.take a ++ chunk ++ data.drop (a + chunk.length)

/-- Mutable loop state of `unpack_file`: the output `bytearray`, the
write cursor `buffer_pos`, and the archive file handle. -/
structure LoopState where
  data : List Nat
  bufferPos : Nat
  handle : Handle
deriving DecidableEq, Repr

/-- The `for block_size in entry.block_sizes` loop of
`ArchiveReader.unpack_file`, lines 150-171 of `Reader.py`.  The first
result component is the raised exception (if any); the third is the
trace of reads performed on the handle. -/
def unpackLoop (inflate : List Nat → Option (List Nat)) (origSize total : Nat) :
    Nat → List Nat → LoopState → Option UnpackErr × LoopState × List IOOp
  | _, [], s => (none, s, [])
  | blockCount, declared :: rest, s =>
    let blockSize := onDiskSize declared
    let blockData := (s.handle.read blockSize).1
    let h' := (s.handle.read blockSize).2
    if blockData.length < blockSize then
      (some UnpackErr.truncated, ⟨s.data, s.bufferPos, h'⟩, [IOOp.read blockSize])
    else if blockSize = MAX_BLOCK_SIZE ∨
        (blockCount = total - 1 ∧ blockSize = origSize % MAX_BLOCK_SIZE) then
      let r := unpackLoop inflate origSize total (blockCount + 1) rest
        ⟨setSlice s.data s.bufferPos blockData, s.bufferPos + blockSize, h'⟩
      (r.1, r.2.1, IOOp.read blockSize :: r.2.2)
    else
      match inflate blockData with
      | none => (some UnpackErr.decompressFailed, ⟨s.data, s.bufferPos, h'⟩, [IOOp.read blockSize])
      | some dec =>
        let r := unpackLoop inflate origSize total (blockCount + 1) rest
          ⟨setSlice s.data s.bufferPos dec, s.bufferPos + dec.length, h'⟩
        (r.1, r.2.1, IOOp.read blockSize :: r.2.2)

/-- `self._entries.get(file_path)`: dictionary lookup. -/
def lookupEntry : List (List Nat × ArchiveEntry) → List Nat → Option ArchiveEntry
  | [], _ => none
  | (k, v) :: rest, key => if k = key then some v else lookupEntry rest key

/-- The state of an `ArchiveReader`: the entry catalog and the optional
open file handle (`None` when closed). -/
structure ReaderState where
  entries : List (List Nat × ArchiveEntry)
  handle : Option Handle
deriving DecidableEq, Repr

/-- `ArchiveReader.unpack_file`.  Returns the result (decompressed bytes
paired with the final write cursor, or the raised error), the reader
state after the call, and the trace of I/O operations performed on the
underlying handle. -/
def unpack_file (inflate : List Nat → Option (List Nat)) (st : ReaderState)
    (filePath : List Nat) :
    Except UnpackErr (List Nat × Nat) × ReaderState × List IOOp :=
  match st.handle with
  | none => (Except.error UnpackErr.notOpen, st, [])
  | some h =>
    match lookupEntry st.entries filePath with
    | none => (Except.error UnpackErr.notFound, st, [])
    | some entry =>
      let s0 : LoopState :=
        ⟨List.replicate entry.original_size 0, 0, h.seek entry.data_offset⟩
      let r := unpackLoop inflate entry.original_size entry.block_sizes.length
        0 entry.block_sizes s0
      match r.1 with
      | some e =>
        (Except.error e, ⟨st.entries, some r.2.1.handle⟩,
         IOOp.seek entry.data_offset :: r.2.2)
      | none =>
        (Except.ok (r.2.1.data, r.2.1.bufferPos), ⟨st.entries, some r.2.1.handle⟩,
         IOOp.seek entry.data_offset :: r.2.2)

/-- Sum of the decompressed chunk lengths. -/
def sumLens (chunks : List (List Nat)) : Nat :=
  (chunks.map List.length).sum

/-- Sum of the on-disk block lengths (after the `0 ↦ 65536` sentinel). -/
def sumOnDisk (sizes : List Nat) : Nat :=
  (sizes.map onDiskSize).sum

/-- Sequential writes of chunks at a running cursor: each chunk is
written at the cursor, which then advances by the chunk's length. -/
def writeChunks (data : List Nat) (bpos : Nat) : List (List Nat) → List Nat
  | [] => data
  | c :: cs => writeChunks (setSlice data bpos c) (bpos + c.length) cs

/-- Declarative (spec-worded) description of one block's contribution to
the output, for block index `i` of `total` whose on-disk bytes are
`rawBytes`: the block is copied raw if and only if its on-disk length
equals the full fixed block size (65536), or it is the last block and
its on-disk length equals `origSize % 65536`; every other block is
passed through DEFLATE inflation. -/
def specBlockOutput (inflate : List Nat → Option (List Nat))
    (origSize total i : Nat) (rawBytes : List Nat) : Option (List Nat) :=
  if rawBytes.length = MAX_BLOCK_SIZE ∨
      (i = total - 1 ∧ rawBytes.length = origSize % MAX_BLOCK_SIZE) then
    some rawBytes
  else
    inflate rawBytes

/-- Declarative description of the whole block sequence: block `i`
occupies the `onDiskSize` bytes of the file at the running file
position; `none` if some block's bytes are missing (short read) or some
compressed block fails to inflate. -/
def specChunks (inflate : List Nat → Option (List Nat)) (origSize total : Nat)
    (content : List Nat) : Nat → Nat → List Nat → Option (List (List Nat))
  | _, _, [] => some []
  | pos, i, declared :: rest =>
    let ds := onDiskSize declared
    let rawBytes := (content.drop pos).take ds
    if rawBytes.length < ds then none
    else
      match specBlockOutput inflate origSize total i rawBytes with
      | none => none
      | some out =>
        (specChunks inflate origSize total content (pos + ds) (i + 1) rest).map
          (fun cs => out :: cs)

/-- Declarative extraction of one entry: the list of per-block output
chunks that `unpack_file` writes at its running cursor. -/
def specUnpack (inflate : List Nat → Option (List Nat)) (content : List Nat)
    (entry : ArchiveEntry) : Option (List (List Nat)) :=
  specChunks inflate entry.original_size entry.block_sizes.length content
    entry.data_offset 0 entry.block_sizes

/-! ## Metadata loading (`ArchiveReader._load_metadata` and helpers) -/

/-- Errors raised inside `_load_metadata`'s `try` block:
`EOFError`/`ValueError("Unexpected EOF ...")` on any short read, and
`ValueError("Invalid archive format")` on a magic mismatch. -/
inductive LoadErr where
  | truncated
  | invalidMagic
deriving DecidableEq, Repr

/-- Little-endian value of a byte list (`struct.unpack` field decoding). -/
def leVal : List Nat → Nat
  | [] => 0
  | b :: rest => b + 256 * leVal rest

/-- Decode a byte list as a sequence of little-endian `u16` values
(`struct.unpack` with `count` copies of format `H`). -/
def parseU16List : List Nat → List Nat
  | a :: b :: rest => (a + 256 * b) :: parseU16List rest
  | _ => []

/-- One raw file record, format `<IIQQQ` with the second (reserved) `u32`
discarded, as in `_read_file_metadata`. -/
structure FileRecord where
  block_sizes_start_index : Nat
  original_size : Nat
  data_offset : Nat
  filepath_offset : Nat
deriving DecidableEq, Repr

/-- `ArchiveReader._read_file_metadata`: read `count` records of 32 bytes
each; a short read raises `EOFError`. -/
def readFileMetadata (h : Handle) : Nat → Except LoadErr (List FileRecord × Handle)
  | 0 => Except.ok ([], h)
  | n + 1 =>
    let d := (h.read 32).1
    let h' := (h.read 32).2
    if d.length < 32 then Except.error LoadErr.truncated
    else
      let r : FileRecord :=
        ⟨leVal (d.take 4), leVal ((d.drop 8).take 8),
         leVal ((d.drop 16).take 8), leVal ((d.drop 24).take 8)⟩
      match readFileMetadata h' n with
      | Except.ok (rest, h'') => Except.ok (r :: rest, h'')
      | Except.error e => Except.error e

/-- `ArchiveReader._read_file_path_data`: read a `u32` size (which counts
its own 4 bytes), then `size - 4` bytes of path blob.  Python's
`file.read(size - 4)` with `size < 4` receives a negative argument and
reads to EOF, and the short-read comparison against a negative number is
then vacuously false, so that branch cannot fail. -/
def readFilePathData (h : Handle) : Except LoadErr (List Nat × Handle) :=
  let sd := (h.read 4).1
  let h1 := (h.read 4).2
  if sd.length < 4 then Except.error LoadErr.truncated
  else
    let size := leVal sd
    if size < 4 then
      Except.ok ((h1.read (h1.content.length - h1.pos)).1,
                 (h1.read (h1.content.length - h1.pos)).2)
    else
      let pd := (h1.read (size - 4)).1
      let h2 := (h1.read (size - 4)).2
      if pd.length < size - 4 then Except.error LoadErr.truncated
      else Except.ok (pd, h2)

/-- The per-file block count computed in `_load_metadata` and
`_get_block_count`: `original_size // 65536`, plus one if there is a
trailing partial block.  Equals `ceil(original_size / 65536)`. -/
def ceilBlocks (originalSize : Nat) : Nat :=
  originalSize / MAX_BLOCK_SIZE +
    (if originalSize % MAX_BLOCK_SIZE = 0 then 0 else 1)

/-- `ArchiveReader._get_block_count`: total number of blocks across all
file records. -/
def getBlockCount (fileMetadata : List FileRecord) : Nat :=
  (fileMetadata.map (fun r => ceilBlocks r.original_size)).sum

/-- `ArchiveReader._read_block_sizes`: read `count * 2` bytes and decode
them as `count` little-endian `u16` values; short read raises. -/
def readBlockSizes (h : Handle) (count : Nat) : Except LoadErr (List Nat × Handle) :=
  let d := (h.read (count * 2)).1
  let h' := (h.read (count * 2)).2
  if d.length < count * 2 then Except.error LoadErr.truncated
  else Except.ok (parseU16List d, h')

/-- Byte-level model of Python `str.lower()` after a permissive UTF-8
decode: ASCII `A`-`Z` map to `a`-`z`; all other byte values pass through
unchanged.  Faithful for ASCII path strings (the decode with
`errors="replace"` never raises, so it cannot affect control flow). -/
def pyLowerByte (b : Nat) : Nat :=
  if 65 ≤ b ∧ b ≤ 90 then b + 32 else b

/-- `ArchiveReader._read_null_string_lower`: the bytes from `offset` up
to (but excluding) the next NUL byte — or the end of the blob when there
is none — decoded permissively and lowercased. -/
def readNullStringLower (data : List Nat) (offset : Nat) : List Nat :=
  ((data.drop offset).takeWhile (fun b => b ≠ 0)).map pyLowerByte

/-- The `ArchiveEntry` built for one record in `_load_metadata`'s final
loop: the slice `global_block_sizes[idx : idx + blocks]` (Python slicing
clamps at the end of the list). -/
def mkEntry (globalBlockSizes : List Nat) (r : FileRecord) : ArchiveEntry :=
  ⟨r.original_size, r.data_offset,
   (globalBlockSizes.drop r.block_sizes_start_index).take (ceilBlocks r.original_size)⟩

/-- Python dict assignment `self._entries[name] = entry`: replace the
value in place if the key is present, otherwise append. -/
def insertEntry : List (List Nat × ArchiveEntry) → List Nat → ArchiveEntry →
    List (List Nat × ArchiveEntry)
  | [], k, v => [(k, v)]
  | (k', v') :: rest, k, v =>
    if k' = k then (k', v) :: rest else (k', v') :: insertEntry rest k v

/-- The catalog-building loop of `_load_metadata` (lines 77-85): for each
record, resolve its name and insert its entry into the catalog. -/
def insertRecords (pathData globalBlockSizes : List Nat)
    (catalog : List (List Nat × ArchiveEntry)) :
    List FileRecord → List (List Nat × ArchiveEntry)
  | [] => catalog
  | r :: rest =>
    insertRecords pathData globalBlockSizes
      (insertEntry catalog (readNullStringLower pathData r.filepath_offset)
        (mkEntry globalBlockSizes r))
      rest

/-- The body of `_load_metadata`'s `try` block, from a fresh handle on
`content`: parse the header, skip the checksum block, read the records,
the path blob and the global block-size table, and build the catalog.
Returns the raised error if any step fails. -/
def loadMetadata (content : List Nat) : Except LoadErr (List (List Nat × ArchiveEntry)) :=
  let h : Handle := ⟨content, 0⟩
  let hd := (h.read 16).1
  let h1 := (h.read 16).2
  if hd.length < 16 then Except.error LoadErr.truncated
  else
    let magic := leVal (hd.take 4)
    let fileCount := leVal (hd.drop 8)
    if magic ≠ 0x4B595253 then Except.error LoadErr.invalidMagic
    else
      match readFileMetadata (h1.seek (h1.pos + 16 * fileCount)) fileCount with
      | Except.error e => Except.error e
      | Except.ok (fileMetadata, h3) =>
        match readFilePathData h3 with
        | Except.error e => Except.error e
        | Except.ok (pathData, h4) =>
          match readBlockSizes h4 (getBlockCount fileMetadata) with
          | Except.error e => Except.error e
          | Except.ok (globalBlockSizes, _) =>
            Except.ok (insertRecords pathData globalBlockSizes [] fileMetadata)

/-- Result of `ArchiveReader.__init__`: the constructor always returns a
reader; `_load_metadata` catches every exception from its `try` block
and logs it with `qWarning`, leaving `_entries` as the empty dict. -/
structure ReaderInit where
  entries : List (List Nat × ArchiveEntry)
  warned : Option LoadErr
deriving DecidableEq, Repr

/-- `ArchiveReader.__init__` / `_load_metadata` as a whole: on success
the catalog is the parsed entries; on any error the catalog is left
empty and the error goes to the warning log only. -/
def mkReader (content : List Nat) : ReaderInit :=
  match loadMetadata content with
  | Except.ok es => ⟨es, none⟩
  | Except.error e => ⟨[], some e⟩

/-! ## Handle lifecycle (`ArchiveReader.open` / `ArchiveReader.close`) -/

/-- `ArchiveReader.open`: if a handle is already stored, return `True`
without touching it; otherwise attempt the OS-level open (`osOpen` is
its outcome: `some h` on success, `none` when `open` raises), storing
the handle on success.  Returns the boolean result and the new state. -/
def readerOpen (osOpen : Option Handle) (st : ReaderState) : Bool × ReaderState :=
  match st.handle with
  | some _ => (true, st)
  | none =>
    match osOpen with
    | some h => (true, ⟨st.entries, some h⟩)
    | none => (false, st)

/-- `ArchiveReader.close`: close and clear the stored handle if there is
one; do nothing otherwise. -/
def readerClose (st : ReaderState) : ReaderState :=
  match st.handle with
  | some _ => ⟨st.entries, none⟩
  | none => st

/-! ## `get_archives` -/

/-- An `OSError` escaping one of the pathlib calls made by
`get_archives`: `Path.exists` and `Path.is_dir` swallow only the benign
errnos (ENOENT, ENOTDIR, EBADF, ELOOP) and re-raise every other
`OSError` (e.g. `PermissionError` on an unsearchable parent), and
`Path.glob` can likewise propagate an `OSError` while iterating. -/
inductive OSError where
  | permissionDenied
  | ioFailure
deriving DecidableEq, Repr

/-- Abstract view of the filesystem folder passed to `get_archives`:
the observable outcome of each pathlib probe the function makes —
`folder.exists()`, `folder.is_dir()`, and listing the directory's child
names (byte lists, like the catalog's paths).  `Except.error` models
the probe raising an `OSError` that `get_archives` does not catch. -/
structure Folder where
  existsResult : Except OSError Bool
  isDirResult : Except OSError Bool
  entryNames : Except OSError (List (List Nat))
deriving DecidableEq, Repr

/-- `fnmatch`-style match of a name against the pattern `*.vbf`: the
`*` matches any (possibly empty) sequence of characters, so a name
matches exactly when it ends with the four bytes `.vbf`
(`[46, 118, 98, 102]`). -/
def matchesVbf (name : List Nat) : Bool :=
  name.drop (name.length - 4) == [46, 118, 98, 102]

/-- `get_archives`: `folder.exists()` is evaluated first (its `OSError`
propagates); a `False` short-circuits the `or` and returns `[]` without
probing `is_dir`.  Otherwise `folder.is_dir()` is evaluated (its
`OSError` propagates), `False` returns `[]`, and only then is the
directory globbed for `*.vbf` (an `OSError` during the iteration
propagates; the partial listing is discarded). -/
def get_archives (folder : Folder) : Except OSError (List (List Nat)) :=
  match folder.existsResult with
  | Except.error e => Except.error e
  | Except.ok ex =>
    if !ex then Except.ok []
    else
      match folder.isDirResult with
      | Except.error e => Except.error e
      | Except.ok dir =>
        if !dir then Except.ok []
        else
          match folder.entryNames with
          | Except.error e => Except.error e
          | Except.ok names => Except.ok (names.filter matchesVbf)

/-! ## Concrete archives used in witnesses and counterexamples -/

/-- A well-formed single-file archive: one file named `a` of original
size 3, stored as one raw trailing block of on-disk size 3 (the bytes
`[1, 2, 3]` at offset 72). -/
def arcA : List Nat :=
  [0x53, 0x52, 0x59, 0x4B, 0, 0, 0, 0, 1, 0, 0, 0, 0, 0, 0, 0] ++
  List.replicate 16 0 ++
  ([0, 0, 0, 0] ++ [0, 0, 0, 0] ++ [3, 0, 0, 0, 0, 0, 0, 0] ++
   [72, 0, 0, 0, 0, 0, 0, 0] ++ [0, 0, 0, 0, 0, 0, 0, 0]) ++
  [6, 0, 0, 0, 97, 0] ++
  [3, 0] ++
  [1, 2, 3]

/-- An archive whose single record carries `block_sizes_start_index = 5`
although the global block-size table has only 2 entries, so the Python
slice `global_block_sizes[5:7]` silently clamps to the empty list.  The
file is named `a`, `original_size = 70000` (2 blocks). -/
def arcBadIndex : List Nat :=
  [0x53, 0x52, 0x59, 0x4B, 0, 0, 0, 0, 1, 0, 0, 0, 0, 0, 0, 0] ++
  List.replicate 16 0 ++
  ([5, 0, 0, 0] ++ [0, 0, 0, 0] ++ [0x70, 0x11, 0x01, 0, 0, 0, 0, 0] ++
   [0, 0, 0, 0, 0, 0, 0, 0] ++ [0, 0, 0, 0, 0, 0, 0, 0]) ++
  [6, 0, 0, 0, 97, 0] ++
  [1, 0, 2, 0]

/-- An archive with one file named `a`, `original_size = 65537`
(2 blocks, trailing partial block of 1 byte), whose block-size table
declares both blocks at on-disk size 1.  The first block is therefore
DEFLATE-compressed (1 is neither 65536 nor the size of a non-last
block's share), while the trailing block (on-disk size 1 = 65537 %
65536) is raw.  Payload: the two bytes `[7, 8]` at offset 74. -/
def arcShortOut : List Nat :=
  [0x53, 0x52, 0x59, 0x4B, 0, 0, 0, 0, 1, 0, 0, 0, 0, 0, 0, 0] ++
  List.replicate 16 0 ++
  ([0, 0, 0, 0] ++ [0, 0, 0, 0] ++ [0x01, 0x00, 0x01, 0, 0, 0, 0, 0] ++
   [74, 0, 0, 0, 0, 0, 0, 0] ++ [0, 0, 0, 0, 0, 0, 0, 0]) ++
  [6, 0, 0, 0, 97, 0] ++
  [1, 0, 1, 0] ++
  [7, 8]

/-- An inflater that always fails; never consulted on raw blocks. -/
def inflNone : List Nat → Option (List Nat) := fun _ => none

/-- An inflater modelling a DEFLATE stream that decodes to the three
bytes `[1, 2, 3]`. -/
def inflThree : List Nat → Option (List Nat) := fun _ => some [1, 2, 3]

/-! ## Helper lemmas about the extraction loop -/

theorem Handle.read_fst (c : List Nat) (p n : Nat) :
    ((⟨c, p⟩ : Handle).read n).1 = (c.drop p).take n := rfl

theorem Handle.read_snd (c : List Nat) (p n : Nat) :
    ((⟨c, p⟩ : Handle).read n).2 = ⟨c, p + ((c.drop p).take n).length⟩ := rfl

theorem take_length_of_not_short {l : List Nat} {n : Nat}
    (h : ¬ (l.take n).length < n) : (l.take n).length = n := by
  have h1 : (l.take n).length ≤ n := by
    simp [List.length_take]
  omega

/-- If the declarative chunk description succeeds, the imperative loop
raises nothing, produces exactly the sequential writes of the chunks at
the running cursor, advances the handle over the on-disk block bytes,
and reads each block at its on-disk size. -/
theorem unpackLoop_of_specChunks (inflate : List Nat → Option (List Nat))
    (origSize total : Nat) (c : List Nat) :
    ∀ (sizes : List Nat) (i : Nat) (data : List Nat) (bpos p : Nat)
      (chunks : List (List Nat)),
    specChunks inflate origSize total c p i sizes = some chunks →
    unpackLoop inflate origSize total i sizes ⟨data, bpos, ⟨c, p⟩⟩ =
      (none,
       ⟨writeChunks data bpos chunks, bpos + sumLens chunks,
        ⟨c, p + sumOnDisk sizes⟩⟩,
       sizes.map (fun s => IOOp.read (onDiskSize s))) := by
  intro sizes
  induction sizes with
  | nil =>
    intro i data bpos p chunks h
    simp only [specChunks, Option.some.injEq] at h
    subst h
    simp [unpackLoop, writeChunks, sumLens, sumOnDisk]
  | cons declared rest ih =>
    intro i data bpos p chunks h
    simp only [specChunks] at h
    by_cases hshort : ((c.drop p).take (onDiskSize declared)).length < onDiskSize declared
    · rw [if_pos hshort] at h
      cases h
    · rw [if_neg hshort] at h
      have hlen : ((c.drop p).take (onDiskSize declared)).length = onDiskSize declared :=
        take_length_of_not_short hshort
      cases hout : specBlockOutput inflate origSize total i
          ((c.drop p).take (onDiskSize declared)) with
      | none => rw [hout] at h; cases h
      | some out =>
        rw [hout] at h
        cases hrec : specChunks inflate origSize total c (p + onDiskSize declared)
            (i + 1) rest with
        | none => rw [hrec] at h; cases h
        | some cs =>
          rw [hrec] at h
          have h2 : some (out :: cs) = some chunks := h
          injection h2 with h3
          subst h3
          by_cases hcond : onDiskSize declared = MAX_BLOCK_SIZE ∨
              (i = total - 1 ∧ onDiskSize declared = origSize % MAX_BLOCK_SIZE)
          · have hout2 : ((c.drop p).take (onDiskSize declared)) = out := by
              simp only [specBlockOutput, hlen, if_pos hcond,
                Option.some.injEq] at hout
              exact hout
            simp only [unpackLoop, Handle.read_fst, Handle.read_snd]
            rw [if_neg hshort, if_pos hcond, hlen,
              ih (i + 1) (setSlice data bpos ((c.drop p).take (onDiskSize declared)))
                (bpos + onDiskSize declared) (p + onDiskSize declared) cs hrec]
            rw [← hout2]
            simp [writeChunks, sumLens, sumOnDisk, hlen, Nat.add_assoc]
          · have hout2 : inflate ((c.drop p).take (onDiskSize declared)) = some out := by
              simp only [specBlockOutput, hlen, if_neg hcond] at hout
              exact hout
            simp only [unpackLoop, Handle.read_fst, Handle.read_snd]
            rw [if_neg hshort, if_neg hcond, hlen, hout2]
            simp only []
            rw [ih (i + 1) (setSlice data bpos out) (bpos + out.length)
              (p + onDiskSize declared) cs hrec]
            simp [writeChunks, sumLens, sumOnDisk, hlen, Nat.add_assoc]

/-- If the declarative description fails, the loop raises some error. -/
theorem unpackLoop_error_of_specChunks_none (inflate : List Nat → Option (List Nat))
    (origSize total : Nat) (c : List Nat) :
    ∀ (sizes : List Nat) (i : Nat) (data : List Nat) (bpos p : Nat),
    specChunks inflate origSize total c p i sizes = none →
    ∃ e, (unpackLoop inflate origSize total i sizes ⟨data, bpos, ⟨c, p⟩⟩).1 = some e := by
  intro sizes
  induction sizes with
  | nil =>
    intro i data bpos p h
    simp [specChunks] at h
  | cons declared rest ih =>
    intro i data bpos p h
    simp only [specChunks] at h
    by_cases hshort : ((c.drop p).take (onDiskSize declared)).length < onDiskSize declared
    · refine ⟨UnpackErr.truncated, ?_⟩
      simp only [unpackLoop, Handle.read_fst, Handle.read_snd]
      rw [if_pos hshort]
    · rw [if_neg hshort] at h
      have hlen : ((c.drop p).take (onDiskSize declared)).length = onDiskSize declared :=
        take_length_of_not_short hshort
      cases hout : specBlockOutput inflate origSize total i
          ((c.drop p).take (onDiskSize declared)) with
      | none =>
        -- the block is not raw and its inflation failed
        have hcond : ¬ (onDiskSize declared = MAX_BLOCK_SIZE ∨
            (i = total - 1 ∧ onDiskSize declared = origSize % MAX_BLOCK_SIZE)) := by
          intro hc
          simp [specBlockOutput, hlen, if_pos hc] at hout
        have hinf : inflate ((c.drop p).take (onDiskSize declared)) = none := by
          simpa [specBlockOutput, hlen, if_neg hcond] using hout
        refine ⟨UnpackErr.decompressFailed, ?_⟩
        simp only [unpackLoop, Handle.read_fst, Handle.read_snd]
        rw [if_neg hshort, if_neg hcond, hinf]
      | some out =>
        rw [hout] at h
        have hrec : specChunks inflate origSize total c (p + onDiskSize declared)
            (i + 1) rest = none := by
          cases hr : specChunks inflate origSize total c (p + onDiskSize declared)
              (i + 1) rest with
          | none => rfl
          | some cs => rw [hr] at h; cases h
        by_cases hcond : onDiskSize declared = MAX_BLOCK_SIZE ∨
            (i = total - 1 ∧ onDiskSize declared = origSize % MAX_BLOCK_SIZE)
        · obtain ⟨e, he⟩ := ih (i + 1)
            (setSlice data bpos ((c.drop p).take (onDiskSize declared)))
            (bpos + onDiskSize declared) (p + onDiskSize declared) hrec
          refine ⟨e, ?_⟩
          simp only [unpackLoop, Handle.read_fst, Handle.read_snd]
          rw [if_neg hshort, if_pos hcond, hlen]
          exact he
        · have hout2 : inflate ((c.drop p).take (onDiskSize declared)) = some out := by
            simpa [specBlockOutput, hlen, if_neg hcond] using hout
          obtain ⟨e, he⟩ := ih (i + 1) (setSlice data bpos out) (bpos + out.length)
            (p + onDiskSize declared) hrec
          refine ⟨e, ?_⟩
          simp only [unpackLoop, Handle.read_fst, Handle.read_snd]
          rw [if_neg hshort, if_neg hcond, hlen, hout2]
          exact he

/-- If inflation never fails, the only way the declarative description
can fail is a short read, and the loop then raises `Truncated`. -/
theorem unpackLoop_truncated_of_specChunks_none (inflate : List Nat → Option (List Nat))
    (hinf : ∀ b, inflate b ≠ none) (origSize total : Nat) (c : List Nat) :
    ∀ (sizes : List Nat) (i : Nat) (data : List Nat) (bpos p : Nat),
    specChunks inflate origSize total c p i sizes = none →
    (unpackLoop inflate origSize total i sizes ⟨data, bpos, ⟨c, p⟩⟩).1 =
      some UnpackErr.truncated := by
  intro sizes
  induction sizes with
  | nil =>
    intro i data bpos p h
    simp [specChunks] at h
  | cons declared rest ih =>
    intro i data bpos p h
    simp only [specChunks] at h
    by_cases hshort : ((c.drop p).take (onDiskSize declared)).length < onDiskSize declared
    · simp only [unpackLoop, Handle.read_fst, Handle.read_snd]
      rw [if_pos hshort]
    · rw [if_neg hshort] at h
      have hlen : ((c.drop p).take (onDiskSize declared)).length = onDiskSize declared :=
        take_length_of_not_short hshort
      cases hout : specBlockOutput inflate origSize total i
          ((c.drop p).take (onDiskSize declared)) with
      | none =>
        exfalso
        by_cases hcond : onDiskSize declared = MAX_BLOCK_SIZE ∨
            (i = total - 1 ∧ onDiskSize declared = origSize % MAX_BLOCK_SIZE)
        · simp [specBlockOutput, hlen, if_pos hcond] at hout
        · exact hinf _ (by simpa [specBlockOutput, hlen, if_neg hcond] using hout)
      | some out =>
        rw [hout] at h
        have hrec : specChunks inflate origSize total c (p + onDiskSize declared)
            (i + 1) rest = none := by
          cases hr : specChunks inflate origSize total c (p + onDiskSize declared)
              (i + 1) rest with
          | none => rfl
          | some cs => rw [hr] at h; cases h
        by_cases hcond : onDiskSize declared = MAX_BLOCK_SIZE ∨
            (i = total - 1 ∧ onDiskSize declared = origSize % MAX_BLOCK_SIZE)
        · simp only [unpackLoop, Handle.read_fst, Handle.read_snd]
          rw [if_neg hshort, if_pos hcond, hlen]
          exact ih (i + 1) (setSlice data bpos ((c.drop p).take (onDiskSize declared)))
            (bpos + onDiskSize declared) (p + onDiskSize declared) hrec
        · have hout2 : inflate ((c.drop p).take (onDiskSize declared)) = some out := by
            simpa [specBlockOutput, hlen, if_neg hcond] using hout
          simp only [unpackLoop, Handle.read_fst, Handle.read_snd]
          rw [if_neg hshort, if_neg hcond, hlen, hout2]
          exact ih (i + 1) (setSlice data bpos out) (bpos + out.length)
            (p + onDiskSize declared) hrec

/-- Every on-disk block length is positive: the `0` sentinel maps to the
full block size and every other declared value is itself positive. -/
theorem onDiskSize_pos (declared : Nat) : 0 < onDiskSize declared := by
  unfold onDiskSize MAX_BLOCK_SIZE
  split <;> omega

/-- If the file ends before the blocks of a (nonempty) block list, the
declarative description fails. -/
theorem specChunks_none_of_short (inflate : List Nat → Option (List Nat))
    (origSize total : Nat) (c : List Nat) :
    ∀ (sizes : List Nat) (i p : Nat), sizes ≠ [] →
    c.length < p + sumOnDisk sizes →
    specChunks inflate origSize total c p i sizes = none := by
  intro sizes
  induction sizes with
  | nil => intro i p hne; exact absurd rfl hne
  | cons declared rest ih =>
    intro i p _ hlt
    simp only [specChunks]
    by_cases hshort : ((c.drop p).take (onDiskSize declared)).length < onDiskSize declared
    · rw [if_pos hshort]
    · rw [if_neg hshort]
      have hlen : ((c.drop p).take (onDiskSize declared)).length = onDiskSize declared :=
        take_length_of_not_short hshort
      have hfit : p + onDiskSize declared ≤ c.length := by
        have h1 : ((c.drop p).take (onDiskSize declared)).length ≤ (c.drop p).length := by
          rw [List.length_take]; exact Nat.min_le_right _ _
        rw [hlen] at h1
        simp only [List.length_drop] at h1
        have hpos := onDiskSize_pos declared
        omega
      cases rest with
      | nil =>
        exfalso
        simp [sumOnDisk] at hlt
        omega
      | cons d2 r2 =>
        have hrec : specChunks inflate origSize total c (p + onDiskSize declared)
            (i + 1) (d2 :: r2) = none := by
          refine ih (i + 1) (p + onDiskSize declared) (by simp) ?_
          simp only [sumOnDisk, List.map_cons, List.sum_cons] at hlt ⊢
          omega
        rw [hrec]
        cases specBlockOutput inflate origSize total i
            ((c.drop p).take (onDiskSize declared)) <;> simp

/-- `setSlice` preserves the buffer length when the written range lies
inside the buffer. -/
theorem setSlice_length (data chunk : List Nat) (a : Nat)
    (hfit : a + chunk.length ≤ data.length) :
    (setSlice data a chunk).length = data.length := by
  simp [setSlice, List.length_take, List.length_drop]
  omega

/-- Writing chunks that fit inside the buffer preserves its length. -/
theorem writeChunks_length :
    ∀ (chunks : List (List Nat)) (data : List Nat) (bpos : Nat),
    bpos + sumLens chunks ≤ data.length →
    (writeChunks data bpos chunks).length = data.length := by
  intro chunks
  induction chunks with
  | nil => intro data bpos _; rfl
  | cons ch rest ih =>
    intro data bpos hfit
    simp only [sumLens, List.map_cons, List.sum_cons] at hfit
    have h1 : bpos + ch.length ≤ data.length := by omega
    have h2 := setSlice_length data ch bpos h1
    simp only [writeChunks]
    rw [ih (setSlice data bpos ch) (bpos + ch.length)
      (by rw [h2]; simp only [sumLens]; omega), h2]

/-! ## Claim theorems: extraction (C1, C2, C5, C6, C7) -/

/-- C1: for every block of an entry being extracted, the block is copied
raw into the output if and only if its on-disk length equals 65536, or
it is the last block and its on-disk length equals
`original_size % 65536`; every other block is passed through DEFLATE
inflation, and the resulting bytes are written at the running output
cursor.  Formally: `unpack_file` refines the declarative description
`specUnpack`, whose per-block raw test (`specBlockOutput`) is exactly
that condition, and whose chunks are written sequentially at the
running cursor (`writeChunks`); when the description fails (short read
or failed inflation) extraction raises. -/
theorem c1_raw_iff_compressed (inflate : List Nat → Option (List Nat))
    (st : ReaderState) (path : List Nat) (h : Handle) (entry : ArchiveEntry)
    (hh : st.handle = some h) (he : lookupEntry st.entries path = some entry) :
    (∀ chunks, specUnpack inflate h.content entry = some chunks →
      (unpack_file inflate st path).1 =
        Except.ok (writeChunks (List.replicate entry.original_size 0) 0 chunks,
          sumLens chunks)) ∧
    (specUnpack inflate h.content entry = none →
      ∃ e, (unpack_file inflate st path).1 = Except.error e) := by
  constructor
  · intro chunks hs
    simp only [specUnpack] at hs
    have hloop := unpackLoop_of_specChunks inflate entry.original_size
      entry.block_sizes.length h.content entry.block_sizes 0
      (List.replicate entry.original_size 0) 0 entry.data_offset chunks hs
    simp only [unpack_file, hh, he, Handle.seek]
    rw [hloop]
    simp
  · intro hs
    simp only [specUnpack] at hs
    obtain ⟨e, he2⟩ := unpackLoop_error_of_specChunks_none inflate
      entry.original_size entry.block_sizes.length h.content entry.block_sizes 0
      (List.replicate entry.original_size 0) 0 entry.data_offset hs
    refine ⟨e, ?_⟩
    simp only [unpack_file, hh, he, Handle.seek]
    rw [he2]

/-- C1 witness: the single-block archive `arcA` (raw trailing block of
3 bytes) extracts to exactly those bytes at cursor 3. -/
theorem c1_raw_iff_compressed_witness :
    (unpack_file inflNone ⟨(mkReader arcA).entries, some ⟨arcA, 0⟩⟩ [97]).1 =
      Except.ok ([1, 2, 3], 3) := by
  have hmain := (c1_raw_iff_compressed inflNone
    ⟨(mkReader arcA).entries, some ⟨arcA, 0⟩⟩ [97] ⟨arcA, 0⟩ ⟨3, 72, [3]⟩ rfl
    (by decide)).1 [[1, 2, 3]] (by decide)
  exact hmain.trans (by decide)

/-- C2: for every block whose declared size is 0, extraction reads
exactly 65536 bytes at the current position, and for every other block
exactly the declared size (the successful I/O trace is the seek followed
by one read of `onDiskSize declared` per block); and when the file ends
before the entry's blocks, extraction fails with `Truncated` (stated
under an inflater that never fails, so that the failure cannot be
attributed to decompression instead of the short read). -/
theorem c2_block_read_sizes (inflate : List Nat → Option (List Nat))
    (st : ReaderState) (path : List Nat) (h : Handle) (entry : ArchiveEntry)
    (hh : st.handle = some h) (he : lookupEntry st.entries path = some entry) :
    (∀ d cur, (unpack_file inflate st path).1 = Except.ok (d, cur) →
      (unpack_file inflate st path).2.2 =
        IOOp.seek entry.data_offset ::
          entry.block_sizes.map (fun s => IOOp.read (onDiskSize s))) ∧
    ((∀ b, inflate b ≠ none) → entry.block_sizes ≠ [] →
      h.content.length < entry.data_offset + sumOnDisk entry.block_sizes →
      (unpack_file inflate st path).1 = Except.error UnpackErr.truncated) := by
  constructor
  · intro d cur hok
    cases hs : specChunks inflate entry.original_size entry.block_sizes.length
        h.content entry.data_offset 0 entry.block_sizes with
    | some chunks =>
      have hloop := unpackLoop_of_specChunks inflate entry.original_size
        entry.block_sizes.length h.content entry.block_sizes 0
        (List.replicate entry.original_size 0) 0 entry.data_offset chunks hs
      simp only [unpack_file, hh, he, Handle.seek]
      rw [hloop]
    | none =>
      exfalso
      obtain ⟨e, he2⟩ := unpackLoop_error_of_specChunks_none inflate
        entry.original_size entry.block_sizes.length h.content entry.block_sizes 0
        (List.replicate entry.original_size 0) 0 entry.data_offset hs
      simp only [unpack_file, hh, he, Handle.seek] at hok
      rw [he2] at hok
      simp at hok
  · intro htot hne hshort
    have hs := specChunks_none_of_short inflate entry.original_size
      entry.block_sizes.length h.content entry.block_sizes 0 entry.data_offset
      hne hshort
    have hloop := unpackLoop_truncated_of_specChunks_none inflate htot
      entry.original_size entry.block_sizes.length h.content entry.block_sizes 0
      (List.replicate entry.original_size 0) 0 entry.data_offset hs
    simp only [unpack_file, hh, he, Handle.seek]
    rw [hloop]

/-- C2 witness: extracting the single 3-byte raw block of `arcA`
performs exactly `seek 72` followed by one read of 3 bytes. -/
theorem c2_block_read_sizes_witness :
    (unpack_file inflNone
      ⟨[([97], (⟨3, 72, [3]⟩ : ArchiveEntry))], some ⟨arcA, 0⟩⟩ [97]).2.2 =
      [IOOp.seek 72, IOOp.read 3] := by
  have hmain := (c2_block_read_sizes inflNone
    ⟨[([97], (⟨3, 72, [3]⟩ : ArchiveEntry))], some ⟨arcA, 0⟩⟩ [97] ⟨arcA, 0⟩
    ⟨3, 72, [3]⟩ rfl (by decide)).1 [1, 2, 3] 3 (by decide)
  exact hmain.trans (by decide)

/-- C5 counterexample: `unpack_file` never checks that the write cursor
reaches `original_size`.  In `arcShortOut` the file `a` has
`original_size = 65537` but its first (compressed) block inflates to
only 3 bytes (`inflThree` models a DEFLATE stream that decodes to
`[1, 2, 3]`; `unpack_file` never validates a block's decompressed
length), so extraction succeeds with final cursor 3 + 1 = 4 ≠ 65537. -/
theorem c5_cursor_counterexample :
    (lookupEntry (mkReader arcShortOut).entries [97]).map
      ArchiveEntry.original_size = some 65537 ∧
    (unpack_file inflThree
      ⟨(mkReader arcShortOut).entries, some ⟨arcShortOut, 0⟩⟩ [97]).1.toOption.map
      Prod.snd = some 4 := by
  constructor
  · decide
  · decide

/-- C5 (amended): the final cursor equals `original_size` exactly when
the per-block outputs together have `original_size` bytes; under that
(well-formedness) assumption the returned buffer also has length
exactly `original_size`.  The code contains no defensive check, so
corrupt metadata or an unexpected decompressed length silently yields a
mismatched cursor (see the counterexample). -/
theorem c5_cursor_amended (inflate : List Nat → Option (List Nat))
    (st : ReaderState) (path : List Nat) (h : Handle) (entry : ArchiveEntry)
    (chunks : List (List Nat)) (hh : st.handle = some h)
    (he : lookupEntry st.entries path = some entry)
    (hs : specUnpack inflate h.content entry = some chunks)
    (hsum : sumLens chunks = entry.original_size) :
    (unpack_file inflate st path).1 =
      Except.ok (writeChunks (List.replicate entry.original_size 0) 0 chunks,
        entry.original_size) ∧
    (writeChunks (List.replicate entry.original_size 0) 0 chunks).length =
      entry.original_size := by
  have hwlen := writeChunks_length chunks (List.replicate entry.original_size 0) 0
    (by simp [hsum])
  constructor
  · simp only [specUnpack] at hs
    have hloop := unpackLoop_of_specChunks inflate entry.original_size
      entry.block_sizes.length h.content entry.block_sizes 0
      (List.replicate entry.original_size 0) 0 entry.data_offset chunks hs
    simp only [unpack_file, hh, he, Handle.seek]
    rw [hloop]
    simp [hsum]
  · simpa using hwlen

/-- C5 witness: on the well-formed archive `arcA` the chunks tile the
3-byte output exactly, and the returned buffer has length 3. -/
theorem c5_cursor_amended_witness :
    (writeChunks (List.replicate 3 0) 0 [[1, 2, 3]]).length = 3 :=
  (c5_cursor_amended inflNone
    ⟨[([97], (⟨3, 72, [3]⟩ : ArchiveEntry))], some ⟨arcA, 0⟩⟩ [97] ⟨arcA, 0⟩
    ⟨3, 72, [3]⟩ [[1, 2, 3]] rfl (by decide) (by decide) (by decide)).2

/-- C6 counterexample: when the handle is not open AND the path is
absent, `unpack_file` raises `HandleNotOpen`, not `EntryNotFound`, so
"fails with NotFound whenever the path is absent" does not hold as
stated. -/
theorem c6_counterexample :
    lookupEntry (ReaderState.mk [] none).entries [120] = none ∧
    (unpack_file inflNone ⟨[], none⟩ [120]).1 = Except.error UnpackErr.notOpen ∧
    (unpack_file inflNone ⟨[], none⟩ [120]).1 ≠ Except.error UnpackErr.notFound := by
  refine ⟨rfl, rfl, ?_⟩
  intro hcontra
  simp [unpack_file] at hcontra

/-- C6 (amended): `HandleNotOpen` takes precedence — extraction fails
with `NotOpen` whenever the handle is closed; when the handle is open
and the path is absent it fails with `NotFound`; and it returns bytes
only when the path is present and the handle is open. -/
theorem c6_error_precedence (inflate : List Nat → Option (List Nat))
    (st : ReaderState) (path : List Nat) :
    (st.handle = none →
      (unpack_file inflate st path).1 = Except.error UnpackErr.notOpen) ∧
    (st.handle ≠ none → lookupEntry st.entries path = none →
      (unpack_file inflate st path).1 = Except.error UnpackErr.notFound) ∧
    (∀ d cur, (unpack_file inflate st path).1 = Except.ok (d, cur) →
      st.handle ≠ none ∧ lookupEntry st.entries path ≠ none) := by
  refine ⟨?_, ?_, ?_⟩
  · intro h0
    simp [unpack_file, h0]
  · intro h0 h1
    cases hh : st.handle with
    | none => exact absurd hh h0
    | some hdl => simp [unpack_file, hh, h1]
  · intro d cur hok
    cases hh : st.handle with
    | none => simp [unpack_file, hh] at hok
    | some hdl =>
      cases he : lookupEntry st.entries path with
      | none => simp [unpack_file, hh, he] at hok
      | some entry => exact ⟨by simp [hh], by simp [he]⟩

/-- C6 witness: with an open handle and an absent path the error is
`EntryNotFound`. -/
theorem c6_error_precedence_witness :
    (unpack_file inflNone
      ⟨[([97], (⟨3, 72, [3]⟩ : ArchiveEntry))], some ⟨arcA, 0⟩⟩ [98]).1 =
      Except.error UnpackErr.notFound :=
  (c6_error_precedence inflNone
    ⟨[([97], (⟨3, 72, [3]⟩ : ArchiveEntry))], some ⟨arcA, 0⟩⟩ [98]).2.1
    (by simp) (by decide)

/-- C7 counterexample: on an absent path with a closed handle the call
returns `HandleNotOpen`, not `EntryNotFound` (the claim's unqualified
"returns EntryNotFound" fails); I/O-freedom itself still holds. -/
theorem c7_no_io_counterexample :
    lookupEntry (ReaderState.mk [([97], ⟨3, 72, [3]⟩)] none).entries [98] = none ∧
    (unpack_file inflNone ⟨[([97], ⟨3, 72, [3]⟩)], none⟩ [98]).1 ≠
      Except.error UnpackErr.notFound := by
  refine ⟨by decide, ?_⟩
  intro hcontra
  simp [unpack_file] at hcontra

/-- C7 (amended): for every path absent from the catalog, extraction
fails (with `NotOpen` when the handle is closed, otherwise
`EntryNotFound`) and performs no I/O whatsoever: the I/O trace is empty
(no seek, no read) and the reader's state is unchanged. -/
theorem c7_no_io_on_absent (inflate : List Nat → Option (List Nat))
    (st : ReaderState) (path : List Nat)
    (habs : lookupEntry st.entries path = none) :
    (unpack_file inflate st path).2.1 = st ∧
    (unpack_file inflate st path).2.2 = [] ∧
    (st.handle = none →
      (unpack_file inflate st path).1 = Except.error UnpackErr.notOpen) ∧
    (st.handle ≠ none →
      (unpack_file inflate st path).1 = Except.error UnpackErr.notFound) := by
  cases hh : st.handle with
  | none =>
    refine ⟨?_, ?_, ?_, ?_⟩
    · simp [unpack_file, hh]
    · simp [unpack_file, hh]
    · intro _
      simp [unpack_file, hh]
    · intro hcon
      exact absurd rfl hcon
  | some hdl =>
    refine ⟨?_, ?_, ?_, ?_⟩
    · simp [unpack_file, hh, habs]
    · simp [unpack_file, hh, habs]
    · intro h0
      exact Option.noConfusion h0
    · intro _
      simp [unpack_file, hh, habs]

/-- C7 witness: absent path, open handle — empty I/O trace. -/
theorem c7_no_io_on_absent_witness :
    (unpack_file inflNone
      ⟨[([97], (⟨3, 72, [3]⟩ : ArchiveEntry))], some ⟨arcA, 0⟩⟩ [99]).2.2 =
      ([] : List IOOp) :=
  (c7_no_io_on_absent inflNone
    ⟨[([97], (⟨3, 72, [3]⟩ : ArchiveEntry))], some ⟨arcA, 0⟩⟩ [99] (by decide)).2.1

/-! ## Helper lemmas about the catalog and the loader -/

/-- An entry of an `insertEntry` result is either an old entry or
carries the inserted value. -/
theorem mem_insertEntry :
    ∀ (cat : List (List Nat × ArchiveEntry)) (k0 : List Nat) (v0 : ArchiveEntry)
      (q : List Nat × ArchiveEntry),
    q ∈ insertEntry cat k0 v0 → q ∈ cat ∨ q = (k0, v0) := by
  intro cat
  induction cat with
  | nil =>
    intro k0 v0 q hq
    simp only [insertEntry, List.mem_singleton] at hq
    right
    exact hq
  | cons hd rest ih =>
    intro k0 v0 q hq
    obtain ⟨k', v'⟩ := hd
    simp only [insertEntry] at hq
    by_cases hk : k' = k0
    · rw [if_pos hk] at hq
      rcases List.mem_cons.mp hq with h1 | h1
      · right
        rw [h1, hk]
      · left
        exact List.mem_cons_of_mem _ h1
    · rw [if_neg hk] at hq
      rcases List.mem_cons.mp hq with h1 | h1
      · left
        rw [h1]
        exact List.mem_cons_self _ _
      · rcases ih k0 v0 q h1 with h2 | h2
        · left
          exact List.mem_cons_of_mem _ h2
        · right
          exact h2

/-- Every entry of the catalog-building loop comes from the starting
catalog or is built by `mkEntry` from one of the records. -/
theorem mem_insertRecords (pd g : List Nat) :
    ∀ (records : List FileRecord) (cat : List (List Nat × ArchiveEntry))
      (q : List Nat × ArchiveEntry),
    q ∈ insertRecords pd g cat records →
    q ∈ cat ∨ ∃ r ∈ records, q.2 = mkEntry g r := by
  intro records
  induction records with
  | nil =>
    intro cat q hq
    left
    exact hq
  | cons r rest ih =>
    intro cat q hq
    simp only [insertRecords] at hq
    rcases ih _ q hq with h1 | h1
    · rcases mem_insertEntry cat _ _ q h1 with h2 | h2
      · left
        exact h2
      · right
        exact ⟨r, List.mem_cons_self _ _, by rw [h2]⟩
    · obtain ⟨r2, hr2, he2⟩ := h1
      right
      exact ⟨r2, List.mem_cons_of_mem _ hr2, he2⟩

/-- The sliced block-size list of a built entry never exceeds the
record's block count (Python slicing clamps). -/
theorem mkEntry_block_sizes_le (g : List Nat) (r : FileRecord) :
    (mkEntry g r).block_sizes.length ≤ ceilBlocks r.original_size := by
  simp only [mkEntry, List.length_take]
  omega

/-- A successful `loadMetadata` produces exactly a catalog built by the
record-insertion loop. -/
theorem loadMetadata_ok_shape (content : List Nat)
    (es : List (List Nat × ArchiveEntry))
    (h : loadMetadata content = Except.ok es) :
    ∃ pd g records, es = insertRecords pd g [] records := by
  simp only [loadMetadata] at h
  split at h
  · cases h
  · split at h
    · cases h
    · split at h
      · cases h
      · split at h
        · cases h
        · split at h
          · cases h
          · injection h with h2
            exact ⟨_, _, _, h2.symm⟩

/-- `lookupEntry` after a replacing insert: the inserted key maps to the
inserted value. -/
theorem lookupEntry_insertEntry_self :
    ∀ (cat : List (List Nat × ArchiveEntry)) (k : List Nat) (v : ArchiveEntry),
    lookupEntry (insertEntry cat k v) k = some v := by
  intro cat
  induction cat with
  | nil =>
    intro k v
    simp [insertEntry, lookupEntry]
  | cons hd rest ih =>
    intro k v
    obtain ⟨k', v'⟩ := hd
    by_cases hk : k' = k
    · simp [insertEntry, hk, lookupEntry]
    · simp [insertEntry, hk, lookupEntry, ih]

/-- `lookupEntry` after a replacing insert: other keys are unaffected. -/
theorem lookupEntry_insertEntry_other :
    ∀ (cat : List (List Nat × ArchiveEntry)) (k0 : List Nat) (v : ArchiveEntry)
      (k : List Nat), k ≠ k0 →
    lookupEntry (insertEntry cat k0 v) k = lookupEntry cat k := by
  intro cat
  induction cat with
  | nil =>
    intro k0 v k hne
    simp [insertEntry, lookupEntry, Ne.symm hne]
  | cons hd rest ih =>
    intro k0 v k hne
    obtain ⟨k', v'⟩ := hd
    by_cases hk : k' = k0
    · have hk0 : ¬ (k0 = k) := fun heq => hne heq.symm
      simp [insertEntry, hk, lookupEntry, hk0]
    · by_cases hk2 : k' = k
      · simp [insertEntry, hk, lookupEntry, hk2, hne]
      · simp [insertEntry, hk, lookupEntry, hk2, ih k0 v k hne]

/-- Full characterization of the catalog built by the loader loop: a key
maps to the entry of the last record resolving to it, or falls back to
the starting catalog. -/
theorem lookupEntry_insertRecords (pd g : List Nat) (k : List Nat) :
    ∀ (records : List FileRecord) (cat : List (List Nat × ArchiveEntry)),
    lookupEntry (insertRecords pd g cat records) k =
      match (records.filter
          (fun r => readNullStringLower pd r.filepath_offset == k)).getLast? with
      | some r => some (mkEntry g r)
      | none => lookupEntry cat k := by
  intro records
  induction records with
  | nil =>
    intro cat
    rfl
  | cons r rest ih =>
    intro cat
    simp only [insertRecords]
    rw [ih]
    by_cases hr : readNullStringLower pd r.filepath_offset = k
    · rw [List.filter_cons_of_pos (by simpa using hr)]
      cases hfny : rest.filter
          (fun r2 => readNullStringLower pd r2.filepath_offset == k) with
      | nil =>
        rw [hr]
        simp [lookupEntry_insertEntry_self]
      | cons x xs =>
        rw [List.getLast?_cons_cons]
        cases hg : (x :: xs).getLast? with
        | none =>
          rw [List.getLast?_eq_none_iff] at hg
          cases hg
        | some r2 => rfl
    · rw [List.filter_cons_of_neg (by simpa using hr)]
      cases hfny : rest.filter
          (fun r2 => readNullStringLower pd r2.filepath_offset == k) with
      | nil =>
        exact lookupEntry_insertEntry_other cat _ _ k fun he => hr he.symm
      | cons x xs =>
        rfl

/-- Keys produced by `insertEntry` are among the old keys plus the
inserted key. -/
theorem keys_insertEntry_sub :
    ∀ (cat : List (List Nat × ArchiveEntry)) (k0 : List Nat) (v0 : ArchiveEntry)
      (x : List Nat),
    x ∈ (insertEntry cat k0 v0).map Prod.fst → x ∈ cat.map Prod.fst ∨ x = k0 := by
  intro cat
  induction cat with
  | nil =>
    intro k0 v0 x hx
    simp only [insertEntry, List.map_cons, List.map_nil, List.mem_singleton] at hx
    right
    exact hx
  | cons hd rest ih =>
    intro k0 v0 x hx
    obtain ⟨k', v'⟩ := hd
    simp only [insertEntry] at hx
    by_cases hk : k' = k0
    · rw [if_pos hk] at hx
      simp only [List.map_cons, List.mem_cons] at hx
      rcases hx with h1 | h1
      · left
        simp [h1]
      · left
        simp only [List.map_cons, List.mem_cons]
        right
        exact h1
    · rw [if_neg hk] at hx
      simp only [List.map_cons, List.mem_cons] at hx
      rcases hx with h1 | h1
      · left
        simp [h1]
      · rcases ih k0 v0 x h1 with h2 | h2
        · left
          simp only [List.map_cons, List.mem_cons]
          right
          exact h2
        · right
          exact h2

/-- A replacing insert preserves distinctness of catalog keys. -/
theorem keys_nodup_insertEntry :
    ∀ (cat : List (List Nat × ArchiveEntry)) (k0 : List Nat) (v0 : ArchiveEntry),
    (cat.map Prod.fst).Nodup → ((insertEntry cat k0 v0).map Prod.fst).Nodup := by
  intro cat
  induction cat with
  | nil =>
    intro k0 v0 _
    simp [insertEntry]
  | cons hd rest ih =>
    intro k0 v0 hnd
    obtain ⟨k', v'⟩ := hd
    simp only [List.map_cons, List.nodup_cons] at hnd
    obtain ⟨hknm, hrest⟩ := hnd
    by_cases hk : k' = k0
    · simp only [insertEntry, if_pos hk, List.map_cons, List.nodup_cons]
      exact ⟨hknm, hrest⟩
    · simp only [insertEntry, if_neg hk, List.map_cons, List.nodup_cons]
      refine ⟨?_, ih k0 v0 hrest⟩
      intro hmem
      rcases keys_insertEntry_sub rest k0 v0 k' hmem with h1 | h1
      · exact hknm h1
      · exact hk h1

/-- The loader loop preserves distinctness of catalog keys. -/
theorem keys_nodup_insertRecords (pd g : List Nat) :
    ∀ (records : List FileRecord) (cat : List (List Nat × ArchiveEntry)),
    (cat.map Prod.fst).Nodup →
    ((insertRecords pd g cat records).map Prod.fst).Nodup := by
  intro records
  induction records with
  | nil =>
    intro cat h
    exact h
  | cons r rest ih =>
    intro cat h
    simp only [insertRecords]
    exact ih _ (keys_nodup_insertEntry cat _ _ h)

/-! ## Claim theorems: metadata load (C3, C4, C8) -/

/-- C3 counterexample: on a truncated archive the load error is caught
inside `_load_metadata` and only logged with `qWarning`; the
constructor completes normally and hands back a reader with an empty
catalog — the caller of `open`/`__init__` receives no error, contrary
to "the error is reported to the caller of open". -/
theorem c3_load_error_counterexample :
    loadMetadata [] = Except.error LoadErr.truncated ∧
    mkReader [] = ⟨[], some LoadErr.truncated⟩ :=
  ⟨rfl, rfl⟩

/-- C3 (amended): any short read, magic mismatch or decode failure
aborts the whole load, leaving the catalog empty (never partially
populated); the error is logged as a warning while construction
returns normally — it is not propagated to the caller. -/
theorem c3_all_or_nothing (content : List Nat) :
    (∀ e, loadMetadata content = Except.error e →
      mkReader content = ⟨[], some e⟩) ∧
    (∀ es, loadMetadata content = Except.ok es →
      mkReader content = ⟨es, none⟩) := by
  constructor
  · intro e he
    simp [mkReader, he]
  · intro es hes
    simp [mkReader, hes]

/-- C3 witness: a 4-byte file fails the 16-byte header read; the
constructed reader has an empty catalog and a logged warning. -/
theorem c3_all_or_nothing_witness :
    mkReader (List.replicate 4 0) = ⟨[], some LoadErr.truncated⟩ :=
  (c3_all_or_nothing (List.replicate 4 0)).1 LoadErr.truncated (by decide)

/-- C4 counterexample: `arcBadIndex` loads successfully (no warning)
although its record's `block_sizes_start_index` points past the global
block-size table; the Python slice clamps, so the stored entry has 0
block sizes while `ceil(70000 / 65536) = 2`. -/
theorem c4_block_slice_counterexample :
    (mkReader arcBadIndex).warned = none ∧
    (lookupEntry (mkReader arcBadIndex).entries [97]).map
      (fun e => e.block_sizes.length) = some 0 ∧
    (lookupEntry (mkReader arcBadIndex).entries [97]).map
      (fun e => ceilBlocks e.original_size) = some 2 := by
  refine ⟨by decide, by decide, by decide⟩

/-- C4 (amended): for every entry stored after a successful load, the
length of its block-size slice is AT MOST `ceil(original_size / 65536)`;
and whenever a record's `block_sizes_start_index` plus its block count
fits inside the global block-size table, the entry built for it has
exactly `ceil(original_size / 65536)` block sizes.  The loader never
validates the start index, and Python's clamping slice can silently
produce a shorter (even empty) list. -/
theorem c4_block_slice_bound (content : List Nat)
    (es : List (List Nat × ArchiveEntry)) (k : List Nat) (e : ArchiveEntry)
    (hload : loadMetadata content = Except.ok es) (hmem : (k, e) ∈ es) :
    e.block_sizes.length ≤ ceilBlocks e.original_size ∧
    (∀ (g : List Nat) (r : FileRecord),
      r.block_sizes_start_index + ceilBlocks r.original_size ≤ g.length →
      (mkEntry g r).block_sizes.length = ceilBlocks r.original_size) := by
  constructor
  · obtain ⟨pd, g, records, hes⟩ := loadMetadata_ok_shape content es hload
    subst hes
    rcases mem_insertRecords pd g records [] (k, e) hmem with h1 | h1
    · cases h1
    · obtain ⟨r, _, h2⟩ := h1
      have h3 : e = mkEntry g r := h2
      rw [h3]
      exact mkEntry_block_sizes_le g r
  · intro g r hfit
    simp only [mkEntry, List.length_take, List.length_drop]
    omega

/-- C4 witness: the clamped entry of `arcBadIndex` satisfies the bound
(0 ≤ 2), and a record whose index fits (index 0, size 70000, table of
2 entries) gets exactly 2 block sizes. -/
theorem c4_block_slice_bound_witness :
    ((⟨70000, 0, []⟩ : ArchiveEntry)).block_sizes.length ≤ ceilBlocks 70000 ∧
    (mkEntry [1, 2] ⟨0, 70000, 0, 0⟩).block_sizes.length = ceilBlocks 70000 := by
  have hmain := c4_block_slice_bound arcBadIndex [([97], ⟨70000, 0, []⟩)] [97]
    ⟨70000, 0, []⟩ (by decide) (by decide)
  exact ⟨hmain.1, hmain.2 [1, 2] ⟨0, 70000, 0, 0⟩ (by decide)⟩

/-- C8: the catalog built by the loader loop maps every normalized path
to the entry of the LAST record resolving to that path (Python dict
assignment overwrites), `none` exactly when no record resolves to it;
and the catalog's keys are unique.  In particular, for an archive whose
raw metadata contains two or more records with the same normalized
path, the last one parsed wins. -/
theorem c8_last_wins (pathData globalBlockSizes : List Nat)
    (records : List FileRecord) (k : List Nat) :
    lookupEntry (insertRecords pathData globalBlockSizes [] records) k =
      ((records.filter
          (fun r => readNullStringLower pathData r.filepath_offset == k)).getLast?).map
        (mkEntry globalBlockSizes) ∧
    ((insertRecords pathData globalBlockSizes [] records).map Prod.fst).Nodup := by
  constructor
  · rw [lookupEntry_insertRecords]
    cases hfny : (records.filter
        (fun r => readNullStringLower pathData r.filepath_offset == k)).getLast? with
    | none => rfl
    | some r => rfl
  · exact keys_nodup_insertRecords pathData globalBlockSizes records [] (by simp)

/-! ## Claim theorems: lifecycle and enumeration (C9, C10) -/

/-- C9: `open` is idempotent — with a handle already stored it returns
`True` and leaves the state (hence the existing handle) unchanged, with
no re-open; `close` on a closed reader is a safe no-op; after `close`
the handle is always unset; and `close` is idempotent. -/
theorem c9_handle_lifecycle (osOpen : Option Handle) (st : ReaderState)
    (h : Handle) :
    (st.handle = some h → readerOpen osOpen st = (true, st)) ∧
    (st.handle = none → readerClose st = st) ∧
    (readerClose st).handle = none ∧
    readerClose (readerClose st) = readerClose st := by
  cases hh : st.handle with
  | none =>
    refine ⟨?_, ?_, ?_, ?_⟩
    · intro hcon
      cases hcon
    · intro _
      simp [readerClose, hh]
    · simp [readerClose, hh]
    · simp [readerClose, hh]
  | some hdl =>
    refine ⟨?_, ?_, ?_, ?_⟩
    · intro _
      simp [readerOpen, hh]
    · intro hcon
      cases hcon
    · simp [readerClose, hh]
    · simp [readerClose, hh]

/-- C9 witness: opening an already-open reader returns `True` and the
same state. -/
theorem c9_handle_lifecycle_witness :
    readerOpen none ⟨[], some ⟨[], 0⟩⟩ = (true, ⟨[], some ⟨[], 0⟩⟩) :=
  (c9_handle_lifecycle none ⟨[], some ⟨[], 0⟩⟩ ⟨[], 0⟩).1 rfl

/-- C10 counterexample: `get_archives` CAN raise — when
`folder.exists()` raises a `PermissionError` (an `OSError` whose errno
pathlib does not swallow), the exception propagates out of
`get_archives` instead of an empty list being returned, refuting the
claim's "it never raises". -/
theorem c10_get_archives_counterexample :
    get_archives ⟨Except.error OSError.permissionDenied, Except.ok true,
      Except.ok [[97, 46, 118, 98, 102]]⟩ =
      Except.error OSError.permissionDenied ∧
    get_archives ⟨Except.error OSError.permissionDenied, Except.ok true,
      Except.ok [[97, 46, 118, 98, 102]]⟩ ≠ Except.ok [] := by
  refine ⟨rfl, ?_⟩
  intro hcontra
  cases hcontra

/-- C10 (amended): when the existence probe reports `False`, or it
reports `True` and the directory probe reports `False`, `get_archives`
returns the empty list; when both report `True` and the listing
succeeds it returns exactly the entries matching `*.vbf`; but an
`OSError` raised by `Path.exists`, `Path.is_dir` or the glob iteration
propagates out of `get_archives` uncaught. -/
theorem c10_get_archives_spec (folder : Folder) :
    (folder.existsResult = Except.ok false →
      get_archives folder = Except.ok []) ∧
    (folder.existsResult = Except.ok true →
      folder.isDirResult = Except.ok false →
      get_archives folder = Except.ok []) ∧
    (∀ names, folder.existsResult = Except.ok true →
      folder.isDirResult = Except.ok true →
      folder.entryNames = Except.ok names →
      get_archives folder = Except.ok (names.filter matchesVbf)) ∧
    (∀ e, folder.existsResult = Except.error e →
      get_archives folder = Except.error e) ∧
    (∀ e, folder.existsResult = Except.ok true →
      folder.isDirResult = Except.error e →
      get_archives folder = Except.error e) ∧
    (∀ e, folder.existsResult = Except.ok true →
      folder.isDirResult = Except.ok true →
      folder.entryNames = Except.error e →
      get_archives folder = Except.error e) := by
  refine ⟨?_, ?_, ?_, ?_, ?_, ?_⟩
  · intro h1
    simp [get_archives, h1]
  · intro h1 h2
    simp [get_archives, h1, h2]
  · intro names h1 h2 h3
    simp [get_archives, h1, h2, h3]
  · intro e h1
    simp [get_archives, h1]
  · intro e h1 h2
    simp [get_archives, h1, h2]
  · intro e h1 h2 h3
    simp [get_archives, h1, h2, h3]

/-- C10 witness: a readable directory holding `a.vbf`, `b.txt`,
`c.vbf2` and `.vbf` yields exactly `a.vbf` and `.vbf`; a folder whose
existence probe reports `False` yields the empty list. -/
theorem c10_get_archives_spec_witness :
    get_archives ⟨Except.ok true, Except.ok true,
      Except.ok [[97, 46, 118, 98, 102], [98, 46, 116, 120, 116],
       [99, 46, 118, 98, 102, 50], [46, 118, 98, 102]]⟩ =
      Except.ok [[97, 46, 118, 98, 102], [46, 118, 98, 102]] ∧
    get_archives ⟨Except.ok false, Except.ok true,
      Except.ok [[97, 46, 118, 98, 102]]⟩ = Except.ok [] := by
  constructor
  · exact (((c10_get_archives_spec ⟨Except.ok true, Except.ok true,
      Except.ok [[97, 46, 118, 98, 102], [98, 46, 116, 120, 116],
       [99, 46, 118, 98, 102, 50], [46, 118, 98, 102]]⟩).2.2.1)
      [[97, 46, 118, 98, 102], [98, 46, 116, 120, 116],
       [99, 46, 118, 98, 102, 50], [46, 118, 98, 102]] rfl rfl rfl).trans (by decide)
  · exact (c10_get_archives_spec ⟨Except.ok false, Except.ok true,
      Except.ok [[97, 46, 118, 98, 102]]⟩).1 rfl

end FF12
